import Mathlib

/-!
Verification development for the `auto-doc-gen-universal` CLI.

The definitions below are a shallow embedding of the TypeScript source,
chiefly `src/cli.ts` (the module-grouping heuristic used by the
`ai:chunks` command, the chunk metadata construction, and the
error-handling shape of the `analyze` / `ai:chunks` actions) and
`src/services/watch-service.ts` (the watch-mode state machine).

JavaScript string operations are modelled on the character list of a
`String` (`String.data`), which keeps every operation structurally
recursive and kernel-evaluable:
  * `s.toLowerCase()`        ↦ `strToLower`
  * `s.endsWith(t)`          ↦ `strEndsWith`
  * `s.startsWith(t)`        ↦ `strStartsWith`
  * `s.includes(t)`          ↦ `strContains`
  * `s.split('/')`           ↦ `strSplitOnSlash`
  * `s.slice`-style suffix removal ↦ `strDropRight`
All names in the repository are ASCII identifiers, for which
`Char.toLower` agrees with JavaScript `toLowerCase`.
-/

namespace AutoDocGen

/-- Model of JavaScript `s.toLowerCase()` (ASCII). -/
def strToLower (s : String) : String :=
  String.mk (s.data.map Char.toLower)

/-- Model of JavaScript `s.endsWith(t)`. -/
def strEndsWith (s t : String) : Bool :=
  t.data.isSuffixOf s.data

/-- Model of JavaScript `s.startsWith(t)`. -/
def strStartsWith (s t : String) : Bool :=
  t.data.isPrefixOf s.data

/-- `listInfix needle hay` is true when `needle` occurs contiguously in
`hay` (the contains-substring test behind JavaScript `includes`). -/
def listInfix (needle : List Char) : List Char → Bool
  | [] => needle.isEmpty
  | a :: as => needle.isPrefixOf (a :: as) || listInfix needle as

/-- Model of JavaScript `s.includes(t)`. -/
def strContains (s t : String) : Bool :=
  listInfix t.data s.data

/-- Drop the last `n` characters, as in `s.slice(0, s.length - n)`. -/
def strDropRight (s : String) (n : Nat) : String :=
  String.mk (s.data.take (s.data.length - n))

/-- Splitting a character list at a separator, as JavaScript
`String.prototype.split` does (`"".split(c) = [""]`, a trailing
separator yields a trailing empty field). -/
def splitOnChar (sep : Char) : List Char → List (List Char)
  | [] => [[]]
  | c :: cs =>
    let r := splitOnChar sep cs
    if c = sep then [] :: r
    else
      match r with
      | [] => [[c]]
      | h :: t => (c :: h) :: t

/-- Model of JavaScript `path.split('/')` from `groupRoutesByController`. -/
def strSplitOnSlash (s : String) : List String :=
  (splitOnChar '/' s.data).map String.mk

/-- A recognized route, as consumed by `groupRoutesByController`
(`src/cli.ts`): only the `method`, `path` and `handler` fields of the
`RouteDescriptor` objects participate in the grouping heuristic. -/
structure Route where
  method : String
  path : String
  handler : String
deriving Repr, DecidableEq

/-- A recognized service; the grouping heuristic reads only `name`. -/
structure Service where
  name : String
deriving Repr, DecidableEq

/-- A recognized controller as read by `groupRoutesByController`: its
`name` and its `routes` list.  (In the JSON both fields may in principle
be absent; the model takes the `routes` field as always present, which
makes the JavaScript truthiness test `controller.name &&
controller.routes` collapse to `controller.name` being non-empty, since
an array — even an empty one — is truthy.) -/
structure Controller where
  name : String
  routes : List Route
deriving Repr, DecidableEq

/-- A recognized type declaration; `getRelatedTypes` reads only `name`. -/
structure TypeDesc where
  name : String
deriving Repr, DecidableEq

/-- The suffix alternatives of the regular expression
`/(Service|Controller|Dto|Entity|Model|Type|Interface)$/i` in
`extractModuleFromName` (`src/cli.ts`), in source order. -/
def declSuffixes : List String :=
  ["Service", "Controller", "Dto", "Entity", "Model", "Type", "Interface"]

/-- One case-insensitive anchored-suffix removal, modelling
`name.replace(/(A|B|...)$/i, '')`.  No two of the alternatives are a
suffix of one another, so at most one of them can match at the end of
the string and the scan order is immaterial. -/
def stripSuffixCI (suffixes : List String) (name : String) : String :=
  match suffixes.find? (fun suf => strEndsWith (strToLower name) (strToLower suf)) with
  | some suf => strDropRight name suf.data.length
  | none => name

/-- Embedding of `extractModuleFromName` (`src/cli.ts`, lines 531-547):
strip one trailing declaration suffix case-insensitively, lower-case,
then pluralize (`...y` becomes `...ies`, a name already ending in `s`
is kept, otherwise `s` is appended).  `null` is returned exactly for
the empty (falsy) name. -/
def extractModuleFromName (name : String) : Option String :=
  if name = "" then none
  else
    let cleanName := strToLower (stripSuffixCI declSuffixes name)
    if strEndsWith cleanName "y" then some (strDropRight cleanName 1 ++ "ies")
    else if strEndsWith cleanName "s" then some cleanName
    else some (cleanName ++ "s")

/-- The character class of the sanitizer regular expression
`/[^a-zA-Z0-9-_]/` in `groupRoutesByController`. -/
def isSafeChar (c : Char) : Bool :=
  (('a' ≤ c && c ≤ 'z') || ('A' ≤ c && c ≤ 'Z') ||
   ('0' ≤ c && c ≤ '9') || c = '-' || c = '_')

/-- Embedding of `moduleName.replace(/[^a-zA-Z0-9-_]/g, '_')`
(`src/cli.ts`, line 519): every character outside the filesystem-safe
class is replaced by an underscore. -/
def sanitizeModuleName (s : String) : String :=
  String.mk (s.data.map (fun c => if isSafeChar c then c else '_'))

/-- The chunk map `Record<string, any[]>` of `groupRoutesByController`,
modelled as an association list in key-insertion order (JavaScript
object keys enumerate in insertion order for string keys). -/
abbrev ChunkMap := List (String × List Route)

/-- `chunks[moduleName].push(route)` together with the preceding
`if (!chunks[moduleName]) chunks[moduleName] = []`: append the route to
the existing bucket, or append a new singleton bucket. -/
def addToChunk (chunks : ChunkMap) (m : String) (r : Route) : ChunkMap :=
  if chunks.any (fun p => p.1 = m) then
    chunks.map (fun p => if p.1 = m then (p.1, p.2 ++ [r]) else p)
  else
    chunks ++ [(m, [r])]

/-- `Map.set` on the `serviceModules` map of `groupRoutesByController`:
an existing key keeps its position and gets the new value, a new key is
appended. -/
def mapSet (m : List (String × String)) (k v : String) : List (String × String) :=
  if m.any (fun p => p.1 = k) then
    m.map (fun p => if p.1 = k then (k, v) else p)
  else
    m ++ [(k, v)]

/-- The `serviceModules` map built by `groupRoutesByController`
(lines 438-446): for each service with a truthy name whose
`extractModuleFromName` is truthy, map the derived module name to the
service name. -/
def serviceModulesOf (services : List Service) : List (String × String) :=
  services.foldl
    (fun acc s =>
      if s.name = "" then acc
      else
        match extractModuleFromName s.name with
        | none => acc
        | some m => if m = "" then acc else mapSet acc m s.name)
    []

/-- One iteration of the controller pass of `groupRoutesByController`
(lines 455-468): a controller with a truthy name (its `routes` array,
even empty, is always truthy) pushes all of its own routes into the
bucket named by its derived module name.  Note that this pass applies
no sanitization to the bucket name. -/
def controllerStep (acc : ChunkMap) (c : Controller) : ChunkMap :=
  if c.name = "" then acc
  else
    match extractModuleFromName c.name with
    | none => acc
    | some m =>
      if m = "" then acc
      else c.routes.foldl (fun a r => addToChunk a m r) acc

/-- The whole controller pass of `groupRoutesByController`
(lines 454-468), starting from the empty chunk map. -/
def controllerChunksOf (controllers : List Controller) : ChunkMap :=
  controllers.foldl controllerStep []

/-- Strip of `/(Service|Controller)$/i` used for `serviceBase` inside
the fallback's service-matching strategy (lines 477-479). -/
def svcCtlSuffixes : List String := ["Service", "Controller"]

/-- Strategy 1 of the fallback (lines 475-488): the first entry of
`serviceModules` whose service base name occurs in the lower-cased
route handler (the handler must be truthy, i.e. non-empty). -/
def firstServiceMatch (sm : List (String × String)) (r : Route) : Option String :=
  (sm.find? (fun p =>
      r.handler ≠ "" &&
      strContains (strToLower r.handler) (strToLower (stripSuffixCI svcCtlSuffixes p.2)))).map
    Prod.fst

/-- The module name computed for one route of the fallback pass
(lines 472-516), before sanitization: service-handler matching, then
path-segment derivation, then position-based assignment. -/
def fallbackModuleRaw (sm : List (String × String)) (index : Nat) (r : Route) : String :=
  let moduleName := (firstServiceMatch sm r).getD "unknown"
  if moduleName = "unknown" then
    if r.path = "/" || r.path = "" then "app"
    else
      let pathSegments :=
        (strSplitOnSlash r.path).filter
          (fun seg => seg ≠ "" && !(strStartsWith seg ":"))
      match pathSegments with
      | seg :: _ => strToLower seg
      | [] =>
        let routeGroup := index / 3
        let moduleNames := sm.map Prod.fst
        if routeGroup < moduleNames.length then
          match moduleNames.get? routeGroup with
          | some n => if n = "" then "app" else n
          | none => "app"
        else "app"
  else moduleName

/-- One route of the fallback pass: compute a raw module name, then
sanitize it (line 519). -/
def fallbackModule (sm : List (String × String)) (index : Nat) (r : Route) : String :=
  sanitizeModuleName (fallbackModuleRaw sm index r)

/-- The `routes.forEach((route, index) => ...)` loop of the fallback
pass: each route is pushed into the bucket named by its (sanitized)
fallback module name. -/
def fallbackLoop (sm : List (String × String)) (acc : ChunkMap) (index : Nat) :
    List Route → ChunkMap
  | [] => acc
  | r :: rs => fallbackLoop sm (addToChunk acc (fallbackModule sm index r) r) (index + 1) rs

/-- Embedding of `groupRoutesByController` (`src/cli.ts`, lines
430-529): build the service-module map, run the controller pass; when
the controller pass produced no bucket at all (`Object.keys(chunks)
.length === 0`), run the per-route fallback pass over the input route
list instead.  (The source computes `serviceModules` up front; it is
only consumed by the fallback pass, so it is passed there directly.) -/
def groupRoutesByController (routes : List Route) (services : List Service)
    (controllers : List Controller) : ChunkMap :=
  if controllerChunksOf controllers = [] then
    fallbackLoop (serviceModulesOf services) [] 0 routes
  else controllerChunksOf controllers

/-- Bool test: route `r` occurs in the bucket named `m`. -/
def inBucketB (chunks : ChunkMap) (m : String) (r : Route) : Bool :=
  chunks.any (fun p => decide (p.1 = m) && p.2.any (fun r' => decide (r' = r)))

/-- Bool test: route `r` occurs in some bucket of the chunk map. -/
def bucketedB (chunks : ChunkMap) (r : Route) : Bool :=
  chunks.any (fun p => p.2.any (fun r' => decide (r' = r)))

/-- The `metadata` object of an analysis result.  `analysisTime` is an
opaque duration (no claim touches its value); `moduleName` is absent
(`""`) on analyzer output and set by the chunking command. -/
structure Metadata where
  totalRoutes : Nat
  totalControllers : Nat
  totalServices : Nat
  totalTypes : Nat
  analysisTime : Nat
  moduleName : String := ""
deriving Repr, DecidableEq

/-- The serialized analysis object shape (`AnalysisResult` of §3 /
`analysisData` in `src/cli.ts`). -/
structure AnalysisData where
  framework : String
  routes : List Route
  controllers : List Controller
  services : List Service
  types : List TypeDesc
  metadata : Metadata
deriving Repr, DecidableEq

/-- Embedding of `getRelatedServices` (`src/cli.ts`, lines 410-418):
services whose lower-cased name contains the lower-cased module name
(with a redundant extra disjunct for the `app` module). -/
def getRelatedServices (moduleName : String) (services : List Service) : List Service :=
  services.filter (fun service =>
    strContains (strToLower service.name) (strToLower moduleName) ||
    (moduleName = "app" && strContains (strToLower service.name) "app"))

/-- Embedding of `getRelatedTypes` (`src/cli.ts`, lines 420-428). -/
def getRelatedTypes (moduleName : String) (types : List TypeDesc) : List TypeDesc :=
  types.filter (fun t =>
    strContains (strToLower t.name) (strToLower moduleName) ||
    (moduleName = "app" && strContains (strToLower t.name) "app"))

/-- Embedding of the `chunkData` object literal built per module inside
`generateChunkedAIDocumentation` (`src/cli.ts`, lines 345-357): spread
the full analysis, replace `routes` by the module's bucket, `services`
and `types` by the name-filtered subsets, and override the
corresponding metadata counts plus `moduleName`; `totalControllers`
and the `controllers` list are inherited unchanged from the input. -/
def chunkAnalysis (analysisData : AnalysisData) (moduleName : String)
    (moduleData : List Route) : AnalysisData :=
  let relatedServices := getRelatedServices moduleName analysisData.services
  let relatedTypes := getRelatedTypes moduleName analysisData.types
  { analysisData with
    routes := moduleData
    services := relatedServices
    types := relatedTypes
    metadata := { analysisData.metadata with
      totalRoutes := moduleData.length
      totalServices := relatedServices.length
      totalTypes := relatedTypes.length
      moduleName := moduleName } }

/-- The §3 invariant: every metadata count field equals the length of
the corresponding list. -/
def countInvariant (a : AnalysisData) : Prop :=
  a.metadata.totalRoutes = a.routes.length ∧
  a.metadata.totalControllers = a.controllers.length ∧
  a.metadata.totalServices = a.services.length ∧
  a.metadata.totalTypes = a.types.length

/-- Modelled from the spec: `src/core/universal-analyzer.ts` is not
among the available sources (only its import and call sites are).  Per
§3, the Analysis Aggregator constructs the `metadata` counts directly
from the lengths of the assembled lists. -/
def mkAnalysisResult (framework : String) (routes : List Route)
    (controllers : List Controller) (services : List Service)
    (types : List TypeDesc) (analysisTime : Nat) : AnalysisData :=
  { framework
    routes
    controllers
    services
    types
    metadata := {
      totalRoutes := routes.length
      totalControllers := controllers.length
      totalServices := services.length
      totalTypes := types.length
      analysisTime } }

/-- Outcome of one MongoDB save attempt (the `connect` /
`saveAnalysis` / `saveDocumentation` / `disconnect` chain inside a
`try` block): either the chain succeeds or some step throws. -/
inductive DbResult where
  | ok
  | err (msg : String)
deriving Repr, DecidableEq

/-- Observable effects of the tail of the `analyze` command action
(`src/cli.ts`, lines 86-108), after a successful `analyzer.analyze()`:
whether the raw analysis file was written, whether the MongoDB save
succeeded or was downgraded to a warning, and whether the AI step ran. -/
structure AnalyzeEffects where
  analysisFileWritten : Bool
  dbSaved : Bool
  dbWarned : Bool
  aiRan : Bool
deriving Repr, DecidableEq

/-- Embedding of `src/cli.ts`, lines 86-108: the raw analysis is
written when `config.files.saveRawAnalysis` is set; the MongoDB block
runs when requested and its failure is caught and reported as a
warning (`console.warn`), never rethrown; the AI step runs afterwards
whenever `--ai` was given, independently of the database outcome. -/
def analyzeTail (saveRawAnalysis saveToDb aiRequested : Bool) (db : DbResult) :
    AnalyzeEffects :=
  let dbOutcome :=
    if saveToDb then
      match db with
      | .ok => (true, false)
      | .err _ => (false, true)
    else (false, false)
  { analysisFileWritten := saveRawAnalysis
    dbSaved := dbOutcome.1
    dbWarned := dbOutcome.2
    aiRan := aiRequested }

/-- Observable per-chunk effects of the loop body of
`generateChunkedAIDocumentation` (`src/cli.ts`, lines 335-397). -/
structure ChunkEffects where
  analysisJsonWritten : Bool
  docWritten : Bool
  dbSaved : Bool
  dbWarned : Bool
deriving Repr, DecidableEq

/-- One iteration of the chunk loop (`src/cli.ts`, lines 335-397): the
chunk's analysis JSON and Markdown files are written unconditionally;
the MongoDB save runs when requested, inside a `try` whose `catch`
warns (`⚠️ MongoDB save failed for ...`) and falls through to the next
iteration. -/
def processChunk (saveToDb : Bool) (db : DbResult) : ChunkEffects :=
  { analysisJsonWritten := true
    docWritten := true
    dbSaved := saveToDb && (match db with | .ok => true | .err _ => false)
    dbWarned := saveToDb && (match db with | .ok => false | .err _ => true) }

/-- The whole chunk loop, one `DbResult` per chunk: since a chunk's
database failure is caught locally, every chunk is processed. -/
def generateChunkedEffects (saveToDb : Bool) (dbs : List DbResult) : List ChunkEffects :=
  dbs.map (processChunk saveToDb)

/-- State of the watch service (`src/services/watch-service.ts`):
`filesProcessed`, `status` and `isBuilding` are the build-server fields
touched by `handleFileChange`; `timerPending` models whether a debounce
timer is armed; `isAnalyzing` is the in-flight guard.  `running` is a
ghost counter of analyses currently in flight (incremented when an
analysis body starts, decremented at its `finally`) used to state the
no-concurrent-analyses property; `started` counts analyses ever
started. -/
structure WatchState where
  filesProcessed : Nat
  status : String
  isBuilding : Bool
  timerPending : Bool
  isAnalyzing : Bool
  running : Nat
  started : Nat
deriving Repr, DecidableEq

/-- The initial state set up by `WatchService.start`. -/
def watchInit : WatchState :=
  { filesProcessed := 0
    status := "Watching for changes..."
    isBuilding := false
    timerPending := false
    isAnalyzing := false
    running := 0
    started := 0 }

/-- Embedding of `WatchService.handleFileChange`
(`src/services/watch-service.ts`, lines 133-149): a path ending in
neither `.ts` nor `.js` returns immediately; otherwise the
files-processed counter is incremented, the status is updated, and the
debounce timer is (re)armed via `debouncedAnalyze`. -/
def handleFileChange (s : WatchState) (event filePath : String) : WatchState :=
  if !strEndsWith filePath ".ts" && !strEndsWith filePath ".js" then s
  else
    { s with
      filesProcessed := s.filesProcessed + 1
      status := "File " ++ event ++ ": " ++ filePath
      isBuilding := true
      timerPending := true }

/-- Embedding of the entry of `WatchService.performAnalysis`
(lines 161-172): when `isAnalyzing` is set, return without starting
anything; otherwise set the guard and begin an analysis (ghost
counters `running` and `started` record the start). -/
def performAnalysisEntry (s : WatchState) : WatchState :=
  if s.isAnalyzing then s
  else
    { s with
      isAnalyzing := true
      status := "Analyzing project..."
      isBuilding := true
      running := s.running + 1
      started := s.started + 1 }

/-- Embedding of the exit of `WatchService.performAnalysis`
(lines 211-227): the in-flight analysis reaches its `finally`, which
clears `isAnalyzing` on success and on failure alike; on success the
status is reset, on failure it is left to the error reporter.  A
finish event with nothing in flight is a no-op (it cannot occur). -/
def analysisFinally (s : WatchState) (ok : Bool) : WatchState :=
  if s.running = 0 then s
  else
    { s with
      isAnalyzing := false
      running := s.running - 1
      status := if ok then "Analysis complete - watching for changes..." else s.status
      isBuilding := if ok then false else s.isBuilding }

/-- Events of the watch-service state machine: a chokidar
`add`/`change`/`unlink` notification, the debounce timer firing (which
calls `performAnalysis`), and an in-flight analysis reaching its
`finally` (having succeeded or failed). -/
inductive WatchEvent where
  | fsEvent (event filePath : String)
  | timerFire
  | analysisDone (ok : Bool)
deriving Repr, DecidableEq

/-- One step of the watch-service state machine. -/
def watchStep (s : WatchState) : WatchEvent → WatchState
  | .fsEvent event filePath => handleFileChange s event filePath
  | .timerFire => if s.timerPending then performAnalysisEntry { s with timerPending := false } else s
  | .analysisDone ok => analysisFinally s ok

/-- Run a trace of watch events from the initial state. -/
def watchRun (tr : List WatchEvent) : WatchState :=
  tr.foldl watchStep watchInit

/-- The C4 claim's pluralization rule read literally: append `ies` when
the cleaned name ends in `y` (rather than replacing the `y`), else
append `s` when not already ending in `s`.  Stated from the claim's
words, for comparison with `extractModuleFromName`. -/
def extractModuleFromNameClaim (name : String) : Option String :=
  if name = "" then none
  else
    let cleanName := strToLower (stripSuffixCI declSuffixes name)
    if strEndsWith cleanName "y" then some (cleanName ++ "ies")
    else if strEndsWith cleanName "s" then some cleanName
    else some (cleanName ++ "s")

/-- The amended pluralization rule, stated from the amended claim's
words: a trailing `y` is replaced by `ies`; a name already ending in
`s` is kept; otherwise `s` is appended. -/
def pluralizeAmended (w : String) : String :=
  if strEndsWith w "y" then strDropRight w 1 ++ "ies"
  else if strEndsWith w "s" then w
  else w ++ "s"

/-- The guard invariant of the watch-service state machine: the number
of in-flight analyses is one exactly when the `isAnalyzing` guard is
set, zero otherwise. -/
def WatchInv (s : WatchState) : Prop :=
  s.running = (if s.isAnalyzing then 1 else 0)

/-- Route `r` is in the bucket named `m` (propositional form). -/
def InBucket (chunks : ChunkMap) (m : String) (r : Route) : Prop :=
  ∃ l, (m, l) ∈ chunks ∧ r ∈ l

/-- Route `r` is in some bucket (propositional form). -/
def Bucketed (chunks : ChunkMap) (r : Route) : Prop :=
  ∃ p ∈ chunks, r ∈ p.2

theorem InBucket.bucketed {chunks : ChunkMap} {m : String} {r : Route}
    (h : InBucket chunks m r) : Bucketed chunks r := by
  obtain ⟨l, hl, hr⟩ := h
  exact ⟨(m, l), hl, hr⟩

theorem inBucketB_eq_true_iff {chunks : ChunkMap} {m : String} {r : Route} :
    inBucketB chunks m r = true ↔ InBucket chunks m r := by
  unfold inBucketB InBucket
  simp only [List.any_eq_true, Bool.and_eq_true, decide_eq_true_eq]
  constructor
  · rintro ⟨⟨k, l⟩, hp, rfl, r', hr', rfl⟩
    exact ⟨l, hp, hr'⟩
  · rintro ⟨l, hl, hr⟩
    exact ⟨(m, l), hl, rfl, r, hr, rfl⟩

theorem bucketedB_eq_true_iff {chunks : ChunkMap} {r : Route} :
    bucketedB chunks r = true ↔ Bucketed chunks r := by
  unfold bucketedB Bucketed
  simp only [List.any_eq_true, decide_eq_true_eq]
  constructor
  · rintro ⟨p, hp, r', hr', rfl⟩
    exact ⟨p, hp, hr'⟩
  · rintro ⟨p, hp, hr⟩
    exact ⟨p, hp, r, hr, rfl⟩

theorem InBucket_addToChunk_self (chunks : ChunkMap) (m : String) (r : Route) :
    InBucket (addToChunk chunks m r) m r := by
  unfold addToChunk
  split
  · rename_i h
    obtain ⟨p, hp, hpm⟩ := List.any_eq_true.mp h
    have hpm' : p.1 = m := of_decide_eq_true hpm
    refine ⟨p.2 ++ [r], ?_, by simp⟩
    have himg : (fun q : String × List Route =>
        if q.1 = m then (q.1, q.2 ++ [r]) else q) p = (m, p.2 ++ [r]) := by
      simp [hpm']
    exact himg ▸ List.mem_map_of_mem _ hp
  · exact ⟨[r], by simp, by simp⟩

theorem InBucket_addToChunk_mono {chunks : ChunkMap} {m : String} {r : Route}
    (m' : String) (r' : Route) (h : InBucket chunks m r) :
    InBucket (addToChunk chunks m' r') m r := by
  obtain ⟨l, hl, hr⟩ := h
  unfold addToChunk
  split
  · by_cases hm : m = m'
    · refine ⟨l ++ [r'], ?_, by simp [hr]⟩
      have himg : (fun q : String × List Route =>
          if q.1 = m' then (q.1, q.2 ++ [r']) else q) (m, l) = (m, l ++ [r']) := by
        simp [hm]
      exact himg ▸ List.mem_map_of_mem _ hl
    · refine ⟨l, ?_, hr⟩
      have himg : (fun q : String × List Route =>
          if q.1 = m' then (q.1, q.2 ++ [r']) else q) (m, l) = (m, l) := by
        simp [hm]
      exact himg ▸ List.mem_map_of_mem _ hl
  · exact ⟨l, List.mem_append_left _ hl, hr⟩

theorem Bucketed_addToChunk_mono {chunks : ChunkMap} {r : Route}
    (m' : String) (r' : Route) (h : Bucketed chunks r) :
    Bucketed (addToChunk chunks m' r') r := by
  obtain ⟨⟨k, l⟩, hp, hr⟩ := h
  unfold addToChunk
  split
  · by_cases hk : k = m'
    · refine ⟨(k, l ++ [r']), ?_, by simp [hr]⟩
      have himg : (fun q : String × List Route =>
          if q.1 = m' then (q.1, q.2 ++ [r']) else q) (k, l) = (k, l ++ [r']) := by
        simp [hk]
      exact himg ▸ List.mem_map_of_mem _ hp
    · refine ⟨(k, l), ?_, hr⟩
      have himg : (fun q : String × List Route =>
          if q.1 = m' then (q.1, q.2 ++ [r']) else q) (k, l) = (k, l) := by
        simp [hk]
      exact himg ▸ List.mem_map_of_mem _ hp
  · exact ⟨(k, l), List.mem_append_left _ hp, hr⟩

theorem InBucket_foldlAdd_mono {m : String} {r : Route} (m' : String)
    (rs : List Route) (chunks : ChunkMap) (h : InBucket chunks m r) :
    InBucket (rs.foldl (fun a x => addToChunk a m' x) chunks) m r := by
  induction rs generalizing chunks with
  | nil => exact h
  | cons x xs ih => exact ih _ (InBucket_addToChunk_mono m' x h)

theorem InBucket_foldlAdd_self {m : String} {r : Route}
    (rs : List Route) (chunks : ChunkMap) (h : r ∈ rs) :
    InBucket (rs.foldl (fun a x => addToChunk a m x) chunks) m r := by
  induction rs generalizing chunks with
  | nil => cases h
  | cons x xs ih =>
    rcases List.mem_cons.mp h with rfl | hx
    · exact InBucket_foldlAdd_mono m xs _ (InBucket_addToChunk_self chunks m r)
    · exact ih _ hx

theorem InBucket_controllerStep_mono {chunks : ChunkMap} {m : String} {r : Route}
    (c : Controller) (h : InBucket chunks m r) :
    InBucket (controllerStep chunks c) m r := by
  unfold controllerStep
  split
  · exact h
  · split
    · exact h
    · split
      · exact h
      · exact InBucket_foldlAdd_mono _ _ _ h

theorem InBucket_foldlCtrl_mono {m : String} {r : Route}
    (cs : List Controller) (chunks : ChunkMap) (h : InBucket chunks m r) :
    InBucket (cs.foldl controllerStep chunks) m r := by
  induction cs generalizing chunks with
  | nil => exact h
  | cons c cs ih => exact ih _ (InBucket_controllerStep_mono c h)

theorem InBucket_controllerPass {m : String} {r : Route} {c : Controller}
    (cs : List Controller) (chunks : ChunkMap) (hc : c ∈ cs)
    (hname : c.name ≠ "") (hm : extractModuleFromName c.name = some m)
    (hm' : m ≠ "") (hr : r ∈ c.routes) :
    InBucket (cs.foldl controllerStep chunks) m r := by
  induction cs generalizing chunks with
  | nil => cases hc
  | cons d ds ih =>
    rcases List.mem_cons.mp hc with rfl | hd
    · refine InBucket_foldlCtrl_mono ds _ ?_
      have hstep : controllerStep chunks c
          = c.routes.foldl (fun a r => addToChunk a m r) chunks := by
        unfold controllerStep
        rw [if_neg hname, hm]
        exact if_neg hm'
      rw [hstep]
      exact InBucket_foldlAdd_self _ _ hr
    · exact ih _ hd

theorem InBucket.ne_nil {chunks : ChunkMap} {m : String} {r : Route}
    (h : InBucket chunks m r) : chunks ≠ [] := by
  obtain ⟨l, hl, _⟩ := h
  intro hnil
  rw [hnil] at hl
  cases hl

theorem Bucketed_fallbackLoop {r : Route} (sm : List (String × String))
    (rs : List Route) (chunks : ChunkMap) (index : Nat)
    (h : r ∈ rs ∨ Bucketed chunks r) :
    Bucketed (fallbackLoop sm chunks index rs) r := by
  induction rs generalizing chunks index with
  | nil =>
    rcases h with h | h
    · cases h
    · exact h
  | cons x xs ih =>
    unfold fallbackLoop
    rcases h with h | h
    · rcases List.mem_cons.mp h with rfl | hx
      · refine ih _ _ (Or.inr ?_)
        exact (InBucket_addToChunk_self chunks _ r).bucketed
      · exact ih _ _ (Or.inl hx)
    · exact ih _ _ (Or.inr (Bucketed_addToChunk_mono _ _ h))

theorem keys_addToChunk {P : String → Prop} {chunks : ChunkMap} {m : String}
    {r : Route} (hacc : ∀ p ∈ chunks, P p.1) (hm : P m) :
    ∀ p ∈ addToChunk chunks m r, P p.1 := by
  intro p hp
  unfold addToChunk at hp
  split at hp
  · obtain ⟨q, hq, hqp⟩ := List.mem_map.mp hp
    by_cases hqm : q.1 = m
    · rw [if_pos hqm] at hqp
      rw [← hqp]
      exact hqm ▸ hacc q hq
    · rw [if_neg hqm] at hqp
      exact hqp ▸ hacc q hq
  · rcases List.mem_append.mp hp with hp' | hp'
    · exact hacc p hp'
    · rcases List.mem_singleton.mp hp' with rfl
      exact hm

theorem isSafeChar_underscore : isSafeChar '_' = true := by decide

theorem sanitize_char_fix (c : Char) :
    (if isSafeChar (if isSafeChar c then c else '_') then (if isSafeChar c then c else '_') else '_')
      = (if isSafeChar c then c else '_') := by
  by_cases h : isSafeChar c = true
  · simp [h]
  · simp [h, isSafeChar_underscore]

theorem sanitizeModuleName_idem (s : String) :
    sanitizeModuleName (sanitizeModuleName s) = sanitizeModuleName s := by
  unfold sanitizeModuleName
  apply congrArg String.mk
  show (s.data.map _).map _ = s.data.map _
  rw [List.map_map]
  refine List.map_congr_left ?_
  intro c _
  exact sanitize_char_fix c

theorem keys_fallbackLoop (sm : List (String × String)) (rs : List Route)
    (chunks : ChunkMap) (index : Nat)
    (hacc : ∀ p ∈ chunks, sanitizeModuleName p.1 = p.1) :
    ∀ p ∈ fallbackLoop sm chunks index rs, sanitizeModuleName p.1 = p.1 := by
  induction rs generalizing chunks index with
  | nil => exact hacc
  | cons x xs ih =>
    unfold fallbackLoop
    refine ih _ _ (keys_addToChunk (P := fun k => sanitizeModuleName k = k) hacc ?_)
    exact sanitizeModuleName_idem _

theorem watchInv_handleFileChange {s : WatchState} (h : WatchInv s)
    (ev p : String) : WatchInv (handleFileChange s ev p) := by
  unfold handleFileChange
  split
  · exact h
  · simpa [WatchInv] using h

theorem watchInv_performEntry {s : WatchState} (h : WatchInv s) :
    WatchInv (performAnalysisEntry s) := by
  unfold WatchInv performAnalysisEntry at *
  by_cases hA : s.isAnalyzing = true
  · simpa [hA] using h
  · simp only [Bool.not_eq_true] at hA
    simp only [hA] at h
    simp [hA, h]

theorem watchInv_finally {s : WatchState} (h : WatchInv s) (ok : Bool) :
    WatchInv (analysisFinally s ok) := by
  unfold WatchInv analysisFinally at *
  split
  · exact h
  · rename_i hrun
    by_cases hA : s.isAnalyzing = true
    · simp only [hA, if_pos] at h
      simp [h]
    · simp only [Bool.not_eq_true] at hA
      simp only [hA] at h
      exact absurd h hrun

theorem watchInv_step {s : WatchState} (e : WatchEvent) (h : WatchInv s) :
    WatchInv (watchStep s e) := by
  cases e with
  | fsEvent ev p =>
    exact watchInv_handleFileChange h ev p
  | timerFire =>
    show WatchInv
      (if s.timerPending = true then
        performAnalysisEntry { s with timerPending := false } else s)
    split
    · exact watchInv_performEntry (by simpa [WatchInv] using h)
    · exact h
  | analysisDone ok =>
    exact watchInv_finally h ok

theorem watchInv_run (tr : List WatchEvent) : WatchInv (watchRun tr) := by
  unfold watchRun
  suffices h : ∀ s, WatchInv s → WatchInv (tr.foldl watchStep s) from
    h watchInit rfl
  induction tr with
  | nil => exact fun s hs => hs
  | cons e es ih => exact fun s hs => ih _ (watchInv_step e hs)

/-- C1 counterexample: with a controller present, `groupRoutesByController`
builds the chunk map from the controllers' own route lists and ignores
the input route list; the input route `GET /a` ends up in no bucket. -/
theorem c1_route_dropped_counterexample :
    groupRoutesByController [⟨"GET", "/a", "ha"⟩] []
        [⟨"ProductsController", [⟨"GET", "/b", "hb"⟩]⟩]
      = [("products", [⟨"GET", "/b", "hb"⟩])] ∧
    bucketedB (groupRoutesByController [⟨"GET", "/a", "ha"⟩] []
        [⟨"ProductsController", [⟨"GET", "/b", "hb"⟩]⟩]) ⟨"GET", "/a", "ha"⟩ = false := by
  decide

/-- C1 (amended): whenever the controller pass contributes no bucket —
in particular when no controllers are present — every route of the
input route list is placed in at least one bucket of the chunk map
returned by `groupRoutesByController`; when controllers do contribute
buckets, the chunk map is built solely from the controllers' own route
lists. -/
theorem c1_fallback_buckets_every_route (routes : List Route)
    (services : List Service) (controllers : List Controller)
    (h : controllerChunksOf controllers = []) :
    routes.all (fun r => bucketedB (groupRoutesByController routes services controllers) r)
      = true := by
  rw [List.all_eq_true]
  intro r hr
  have hgr : groupRoutesByController routes services controllers
      = fallbackLoop (serviceModulesOf services) [] 0 routes := by
    unfold groupRoutesByController
    rw [h]
    rfl
  rw [hgr, bucketedB_eq_true_iff]
  exact Bucketed_fallbackLoop _ _ _ _ (Or.inl hr)

/-- Witness for the amended C1 theorem at a concrete input. -/
theorem c1_fallback_buckets_witness :
    ([⟨"GET", "/a", "ha"⟩] : List Route).all
      (fun r => bucketedB (groupRoutesByController [⟨"GET", "/a", "ha"⟩] [] []) r) = true :=
  c1_fallback_buckets_every_route [⟨"GET", "/a", "ha"⟩] [] [] rfl

/-- C2: every per-module chunk analysis built by
`generateChunkedAIDocumentation` satisfies the metadata count
invariant, given that the input serialized analysis satisfies it
(which the Analysis Aggregator guarantees, see `mkAnalysisResult`). -/
theorem c2_chunk_metadata_counts (a : AnalysisData) (moduleName : String)
    (moduleData : List Route) (h : countInvariant a) :
    countInvariant (chunkAnalysis a moduleName moduleData) := by
  obtain ⟨-, hc, -, -⟩ := h
  exact ⟨rfl, hc, rfl, rfl⟩

/-- Witness for C2 at a concrete analyzer output. -/
theorem c2_chunk_metadata_counts_witness :
    countInvariant (chunkAnalysis (mkAnalysisResult "express" [] [] [] [] 0) "app" []) :=
  c2_chunk_metadata_counts _ "app" [] ⟨rfl, rfl, rfl, rfl⟩

/-- C3: a controller named `ProductsController` that lists a route
among its routes makes `groupRoutesByController` place that route in
the bucket named `products`. -/
theorem c3_products_controller_grouping (routes : List Route)
    (services : List Service) (controllers : List Controller)
    (c : Controller) (r : Route) (hc : c ∈ controllers)
    (hname : c.name = "ProductsController") (hr : r ∈ c.routes) :
    inBucketB (groupRoutesByController routes services controllers) "products" r = true := by
  have hm : extractModuleFromName c.name = some "products" := by
    rw [hname]; decide
  have hib : InBucket (controllerChunksOf controllers) "products" r :=
    InBucket_controllerPass controllers [] hc
      (by rw [hname]; decide) hm (by decide) hr
  have hne : controllerChunksOf controllers ≠ [] := hib.ne_nil
  rw [inBucketB_eq_true_iff]
  unfold groupRoutesByController
  rw [if_neg hne]
  exact hib

/-- Witness for C3 at a concrete controller. -/
theorem c3_products_controller_grouping_witness :
    inBucketB
      (groupRoutesByController [] []
        [⟨"ProductsController", [⟨"GET", "/products", "getProducts"⟩]⟩])
      "products" ⟨"GET", "/products", "getProducts"⟩ = true :=
  c3_products_controller_grouping [] [] _ _ _
    (List.mem_singleton.mpr rfl) rfl (List.mem_singleton.mpr rfl)

/-- C4 counterexample: on the name `Category`, the code replaces the
trailing `y` with `ies` (`categories`), while the claim's literal
"append `ies`" rule yields `categoryies`. -/
theorem c4_append_ies_counterexample :
    extractModuleFromName "Category" = some "categories" ∧
    extractModuleFromNameClaim "Category" = some "categoryies" ∧
    extractModuleFromName "Category" ≠ extractModuleFromNameClaim "Category" := by
  decide

/-- C4 (amended): for every non-empty name, the derived module name is
obtained by stripping one trailing declaration suffix
case-insensitively, lower-casing, and pluralizing with the trailing
`y` replaced by `ies` (else keeping a trailing `s`, else appending
`s`). -/
theorem c4_module_name_rule (name : String) (h : name ≠ "") :
    extractModuleFromName name
      = some (pluralizeAmended (strToLower (stripSuffixCI declSuffixes name))) := by
  by_cases hy : strEndsWith (strToLower (stripSuffixCI declSuffixes name)) "y" = true
  · simp [extractModuleFromName, pluralizeAmended, if_neg h, hy]
  · by_cases hs : strEndsWith (strToLower (stripSuffixCI declSuffixes name)) "s" = true
    · simp [extractModuleFromName, pluralizeAmended, if_neg h, hy, hs]
    · simp [extractModuleFromName, pluralizeAmended, if_neg h, hy, hs]

/-- Witness for the amended C4 theorem at `Category`. -/
theorem c4_module_name_rule_witness :
    extractModuleFromName "Category"
      = some (pluralizeAmended (strToLower (stripSuffixCI declSuffixes "Category"))) :=
  c4_module_name_rule "Category" (by decide)

/-- C5 counterexample: a bucket produced by the controller pass is not
sanitized; the controller `User.ProfileController` yields the bucket
key `user.profiles`, which contains a character outside the
filesystem-safe class. -/
theorem c5_unsanitized_controller_module_counterexample :
    groupRoutesByController [] [] [⟨"User.ProfileController", [⟨"GET", "/p", "h"⟩]⟩]
      = [("user.profiles", [⟨"GET", "/p", "h"⟩])] ∧
    sanitizeModuleName "user.profiles" ≠ "user.profiles" := by
  decide

/-- C5 (amended): sanitization is the final step of the per-route
fallback pass only: whenever the controller pass contributes no
bucket, every bucket key of the returned chunk map is a fixed point of
the sanitizer; keys derived by the controller pass are used
unsanitized. -/
theorem c5_fallback_keys_sanitized (routes : List Route)
    (services : List Service) (controllers : List Controller)
    (h : controllerChunksOf controllers = []) :
    (groupRoutesByController routes services controllers).all
      (fun p => sanitizeModuleName p.1 = p.1) = true := by
  rw [List.all_eq_true]
  intro p hp
  have hgr : groupRoutesByController routes services controllers
      = fallbackLoop (serviceModulesOf services) [] 0 routes := by
    unfold groupRoutesByController
    rw [h]
    rfl
  rw [hgr] at hp
  have := keys_fallbackLoop (serviceModulesOf services) routes [] 0
    (by intro q hq; cases hq) p hp
  exact decide_eq_true this

/-- Witness for the amended C5 theorem: a path with a space yields a
sanitized bucket key. -/
theorem c5_fallback_keys_witness :
    (groupRoutesByController [⟨"GET", "/my items/x", "h"⟩] [] []).all
      (fun p => sanitizeModuleName p.1 = p.1) = true :=
  c5_fallback_keys_sanitized [⟨"GET", "/my items/x", "h"⟩] [] [] rfl

/-- C6 counterexample: there is no CRUD-verb keyword strategy in
`groupRoutesByController`; a route with handler `createOrder` and no
matching controller or service is bucketed by its first path segment
(`orders`), not under `create`. -/
theorem c6_no_crud_keyword_counterexample :
    groupRoutesByController [⟨"POST", "/orders", "createOrder"⟩] [] []
      = [("orders", [⟨"POST", "/orders", "createOrder"⟩])] ∧
    inBucketB (groupRoutesByController [⟨"POST", "/orders", "createOrder"⟩] [] [])
      "create" ⟨"POST", "/orders", "createOrder"⟩ = false := by
  decide

/-- C6 (amended): a route with handler name `createOrder` and no
matching controller and no service-derived module match is assigned by
the path-segment strategy to the lower-cased first non-parameter
segment of its path — `orders` for path `/orders` — whatever its HTTP
method; the cascade has no CRUD-verb keyword step. -/
theorem c6_create_order_path_segment (method : String) :
    inBucketB (groupRoutesByController [⟨method, "/orders", "createOrder"⟩] [] [])
      "orders" ⟨method, "/orders", "createOrder"⟩ = true := by
  have h : groupRoutesByController [⟨method, "/orders", "createOrder"⟩] [] []
      = [("orders", [⟨method, "/orders", "createOrder"⟩])] := rfl
  rw [inBucketB_eq_true_iff]
  exact ⟨[⟨method, "/orders", "createOrder"⟩],
    by rw [h]; exact List.mem_singleton.mpr rfl,
    List.mem_singleton.mpr rfl⟩

/-- C7 counterexample: there is no HTTP-method bucketing strategy in
`groupRoutesByController`; the route `DELETE /items/:id` with no other
identifying information is bucketed by its first non-parameter path
segment (`items`), not under `delete`. -/
theorem c7_no_method_bucketing_counterexample :
    groupRoutesByController [⟨"DELETE", "/items/:id", ""⟩] [] []
      = [("items", [⟨"DELETE", "/items/:id", ""⟩])] ∧
    inBucketB (groupRoutesByController [⟨"DELETE", "/items/:id", ""⟩] [] [])
      "delete" ⟨"DELETE", "/items/:id", ""⟩ = false := by
  decide

/-- C7 (amended): the route `DELETE /items/:id` with no matching
controller, no service match and an empty handler is assigned by the
path-segment strategy to the bucket `items` (the `:id` segment is
skipped as a parameter); the cascade has no HTTP-method bucketing
step. -/
theorem c7_delete_items_path_segment :
    inBucketB (groupRoutesByController [⟨"DELETE", "/items/:id", ""⟩] [] [])
      "items" ⟨"DELETE", "/items/:id", ""⟩ = true := by
  decide

/-- C8: in watch mode two analyses never run concurrently: along every
event trace at most one analysis is in flight; while the `isAnalyzing`
guard is set, a `performAnalysis` entry leaves the state unchanged and
a fired debounce timer starts no new analysis; and whenever an
analysis is in flight, its completion — successful or failed — clears
the guard. -/
theorem c8_no_concurrent_analyses (tr : List WatchEvent) :
    (watchRun tr).running ≤ 1 ∧
    ((watchRun tr).isAnalyzing = true →
      performAnalysisEntry (watchRun tr) = watchRun tr ∧
      (watchStep (watchRun tr) WatchEvent.timerFire).started = (watchRun tr).started) ∧
    ((watchRun tr).running ≠ 0 →
      (watchStep (watchRun tr) (WatchEvent.analysisDone true)).isAnalyzing = false ∧
      (watchStep (watchRun tr) (WatchEvent.analysisDone false)).isAnalyzing = false) := by
  have hinv : WatchInv (watchRun tr) := watchInv_run tr
  unfold WatchInv at hinv
  refine ⟨?_, ?_, ?_⟩
  · rw [hinv]
    split <;> simp
  · intro hA
    constructor
    · unfold performAnalysisEntry
      rw [if_pos hA]
    · show (if (watchRun tr).timerPending = true then
          performAnalysisEntry { watchRun tr with timerPending := false }
          else watchRun tr).started = (watchRun tr).started
      split
      · simp [performAnalysisEntry, hA]
      · rfl
  · intro hrun
    constructor
    · show (analysisFinally (watchRun tr) true).isAnalyzing = false
      simp [analysisFinally, hrun]
    · show (analysisFinally (watchRun tr) false).isAnalyzing = false
      simp [analysisFinally, hrun]

/-- Witness for C8: after a source-file change and a timer firing, an
analysis is in flight and a second `performAnalysis` entry is a
no-op. -/
theorem c8_no_concurrent_analyses_witness :
    performAnalysisEntry (watchRun [WatchEvent.fsEvent "change" "a.ts", WatchEvent.timerFire])
      = watchRun [WatchEvent.fsEvent "change" "a.ts", WatchEvent.timerFire] :=
  ((c8_no_concurrent_analyses [WatchEvent.fsEvent "change" "a.ts",
      WatchEvent.timerFire]).2.1 (by decide)).1

/-- C9: a MongoDB save failure aborts nothing: the `analyze` action
still writes the analysis file (when configured), downgrades the
failure to a warning, and still runs the AI step; and in the chunked
generation every chunk still has both its analysis JSON and its
documentation written, one chunk per database outcome. -/
theorem c9_db_failure_never_aborts (saveRaw saveToDb aiRequested : Bool)
    (msg : String) (dbs : List DbResult) :
    analyzeTail saveRaw saveToDb aiRequested (DbResult.err msg)
      = { analysisFileWritten := saveRaw
          dbSaved := false
          dbWarned := saveToDb
          aiRan := aiRequested } ∧
    (generateChunkedEffects saveToDb dbs).length = dbs.length ∧
    (generateChunkedEffects saveToDb dbs).all
      (fun e => e.analysisJsonWritten && e.docWritten) = true := by
  refine ⟨?_, ?_, ?_⟩
  · cases saveToDb <;> rfl
  · simp [generateChunkedEffects]
  · rw [List.all_eq_true]
    intro e he
    obtain ⟨d, -, rfl⟩ := List.mem_map.mp he
    rfl

/-- C10: a file-system event for a path ending in neither `.ts` nor
`.js` leaves the watch-service state entirely unchanged: no counter
increment, no status update, no debounce scheduling. -/
theorem c10_non_source_event_ignored (s : WatchState) (event filePath : String)
    (hts : strEndsWith filePath ".ts" = false)
    (hjs : strEndsWith filePath ".js" = false) :
    handleFileChange s event filePath = s := by
  unfold handleFileChange
  rw [hts, hjs]
  rfl

/-- Witness for C10 at a Markdown path. -/
theorem c10_non_source_event_ignored_witness :
    handleFileChange watchInit "change" "README.md" = watchInit :=
  c10_non_source_event_ignored watchInit "change" "README.md" (by decide) (by decide)

end AutoDocGen
